import Mathlib

/-!
Shallow embedding of the core of `steppe.py` (fasiha/steppe-map).

The numerical code is translated into exact arithmetic over an arbitrary
linear ordered field `K` (instantiated at `ℚ` for concrete witnesses):

* `remove_affine` (steppe.py lines 48-102): least-squares removal of an
  affine transform between two `d × N` point sets, with the three solve
  branches of the source (supplied factorization / skip-factorization
  `la.lstsq` / `scila.cho_factor` + `cho_solve`).
* `search` (lines 158-192): multi-strategy optimizer; the five scipy
  optimizers are external and abstracted as function parameters, while the
  result-selection logic of lines 190-192 is embedded exactly.
* `make_vector2dictfunc` (lines 195-200), `grid1dsearch` (lines 203-231),
  `listToParams`/`paramsToInit` (lines 403-414), `fine`'s objective
  (lines 417-430) and `fineLoad` (lines 472-476).

External collaborators (pyproj `Proj` forward/inverse evaluation, the scipy
optimizers, `np.sqrt`) are modelled as abstract function parameters, exactly
as the spec designates them ("external collaborators").
-/

namespace Steppe

open Matrix

variable {K : Type} [LinearOrderedField K]
variable {d N n m : ℕ}

/-- Row-augmented source matrix: `qaug = np.vstack([q, np.ones_like(q[0, :])])`
(steppe.py line 83).  The first `d` rows are `q`, the last row is all ones. -/
def qaug (q : Matrix (Fin d) (Fin N) K) : Matrix (Fin (d + 1)) (Fin N) K :=
  Matrix.of fun i j => if h : (i : ℕ) < d then q ⟨i, h⟩ j else 1

/-- Normal-equations matrix `Q = np.dot(qaug, qaug.T)` (steppe.py line 85). -/
def normalMat (q : Matrix (Fin d) (Fin N) K) : Matrix (Fin (d + 1)) (Fin (d + 1)) K :=
  qaug q * (qaug q)ᵀ

/-- Leading principal `(k+1) × (k+1)` minor of a square matrix. -/
def leadingMinor (Q : Matrix (Fin n) (Fin n) K) (k : Fin n) :
    Matrix (Fin ((k : ℕ) + 1)) (Fin ((k : ℕ) + 1)) K :=
  Q.submatrix (Fin.castLE k.isLt) (Fin.castLE k.isLt)

/-- Success condition of `scipy.linalg.cho_factor` on a symmetric matrix:
the Cholesky factorization exists (and the LAPACK routine does not raise
`LinAlgError`) exactly when the matrix is positive definite, which by
Sylvester's criterion is the positivity of every leading principal minor. -/
def cholOk (Q : Matrix (Fin n) (Fin n) K) : Prop :=
  ∀ k : Fin n, 0 < (leadingMinor Q k).det

instance (Q : Matrix (Fin n) (Fin n) K) : Decidable (cholOk Q) :=
  decidable_of_iff (∀ k : Fin n, 0 < (leadingMinor Q k).det) Iff.rfl

/-- Exact solution of the square linear system `Q * X = b` by Cramer's rule
(`det⁻¹ • adjugate`); this is the value computed (in exact arithmetic) by
`scipy.linalg.cho_solve` on a factorization of the invertible matrix `Q`. -/
def solveUnit (Q : Matrix (Fin n) (Fin n) K) (b : Matrix (Fin n) (Fin m) K) :
    Matrix (Fin n) (Fin m) K :=
  Q.det⁻¹ • (Q.adjugate * b)

/-- Least-squares solution computed by `np.linalg.lstsq(Q, b)` via the normal
equations `Qᵀ Q x = Qᵀ b`.  For invertible `Q` this is the exact solution
`Q⁻¹ b`; `lstsq` never raises on a singular system (it returns the
minimum-norm least-squares solution; only its existence, i.e. the absence of
an exception, is relied on at singular inputs). -/
def lstsqSolve (Q : Matrix (Fin n) (Fin n) K) (b : Matrix (Fin n) (Fin m) K) :
    Matrix (Fin n) (Fin m) K :=
  solveUnit (Qᵀ * Q) (Qᵀ * b)

/-- Opaque factorization token returned by `scila.cho_factor` (steppe.py
line 92).  It is trusted blindly by `cho_solve`, so we record the factored
matrix itself: solving against a stale token solves against the matrix that
was factored, not the current design — exactly the documented hazard. -/
structure CholFactor (n : ℕ) (K : Type) where
  mat : Matrix (Fin n) (Fin n) K

/-- Model of `scila.cho_factor` (steppe.py line 92): raises (returns `none`)
exactly when the matrix is not positive definite. -/
def cho_factor (Q : Matrix (Fin n) (Fin n) K) : Option (CholFactor n K) :=
  if cholOk Q then some ⟨Q⟩ else none

/-- Model of `scila.cho_solve` (steppe.py lines 93 and 96). -/
def cho_solve (f : CholFactor n K) (b : Matrix (Fin n) (Fin m) K) :
    Matrix (Fin n) (Fin m) K :=
  solveUnit f.mat b

/-- Result record of `remove_affine`: the tuple
`(qnew, q_factor, Ahat, that)` of steppe.py line 102. -/
structure AffineResult (d N : ℕ) (K : Type) where
  qnew : Matrix (Fin d) (Fin N) K
  q_factor : Option (CholFactor (d + 1) K)
  Ahat : Matrix (Fin d) (Fin d) K
  that : Fin d → K

/-- Extraction of `Ahat = sol[:-1, :].T`, `that = sol[-1:, :].T` and
`qnew = np.dot(Ahat, q) + that` (steppe.py lines 99-101) from the solved
`(d+1) × d` coefficient block. -/
def mkResult (q : Matrix (Fin d) (Fin N) K) (sol : Matrix (Fin (d + 1)) (Fin d) K)
    (qf : Option (CholFactor (d + 1) K)) : AffineResult d N K :=
  let Ahat : Matrix (Fin d) (Fin d) K := Matrix.of fun i j => sol (Fin.castSucc j) i
  let that : Fin d → K := fun i => sol (Fin.last d) i
  ⟨Ahat * q + Matrix.of fun i _ => that i, qf, Ahat, that⟩

/-- Model of `remove_affine(p, q, q_factor, skip_factorization)` (steppe.py
lines 48-102).  `none` models an uncaught `LinAlgError` raised by
`cho_factor`.  The three branches mirror the source: a supplied `q_factor`
is trusted and used directly; otherwise either the direct `la.lstsq` solve
(`skip_factorization=True`, which never raises) or `cho_factor`/`cho_solve`. -/
def remove_affine (p q : Matrix (Fin d) (Fin N) K)
    (q_factor : Option (CholFactor (d + 1) K)) (skip_factorization : Bool) :
    Option (AffineResult d N K) :=
  match q_factor with
  | some f => some (mkResult q (cho_solve f (qaug q * pᵀ)) (some f))
  | none =>
    if skip_factorization then
      some (mkResult q (lstsqSolve (normalMat q) (qaug q * pᵀ)) none)
    else
      match cho_factor (normalMat q) with
      | some f => some (mkResult q (cho_solve f (qaug q * pᵀ)) (some f))
      | none => none

/-- Application of an affine transform to a point set:
`A * q + t`, the vector `t` added to each column (steppe.py docstring,
lines 54-57). -/
def affineApply (A : Matrix (Fin d) (Fin d) K) (t : Fin d → K)
    (q : Matrix (Fin d) (Fin N) K) : Matrix (Fin d) (Fin N) K :=
  A * q + Matrix.of fun i _ => t i

/-- The stacked `(d+1) × d` coefficient block `[Aᵀ; tᵀ]` corresponding to an
affine transform; `remove_affine`'s solve recovers exactly this block. -/
def stackMat (A : Matrix (Fin d) (Fin d) K) (t : Fin d → K) :
    Matrix (Fin (d + 1)) (Fin d) K :=
  Matrix.of fun i j => if h : (i : ℕ) < d then A j ⟨i, h⟩ else t j

/-- Stack of the pixel rows `np.vstack([x, y])` (steppe.py line 159). -/
def pixMat (x y : Fin N → K) : Matrix (Fin 2) (Fin N) K :=
  Matrix.of ![x, y]

/-- Stack `np.vstack([xout, yout])` of the forward-projected control points
`xout, yout = p(lon, lat)` (steppe.py lines 163-164); the projection `p` is
the external pyproj evaluator, abstracted as a function `K → K → K × K`. -/
def projMat (project : K → K → K × K) (lon lat : Fin N → K) : Matrix (Fin 2) (Fin N) K :=
  Matrix.of ![fun j => (project (lon j) (lat j)).1, fun j => (project (lon j) (lat j)).2]

/-- Objective closure `minimize` of `search` (steppe.py lines 161-166) for a
fixed parameter vector: the external composite
`Proj(proj=proj, **vec2dictfunc(inputvec))` is the abstract `project`
argument.  Returns `none` when `remove_affine` raises. -/
def searchObjective (project : K → K → K × K) (lon lat x y : Fin N → K) : Option K :=
  (remove_affine (pixMat x y) (projMat project lon lat) none false).map
    (fun r => ∑ i, ∑ j, (pixMat x y i j - r.qnew i j) ^ 2)

/-- Value of `np.argmin(map(lambda x: x[idx_fx], sols))` (steppe.py line 191)
under Python 3: `map` returns an iterator, `np.asarray` wraps that iterator
in a zero-dimensional object array, and `argmin` of a zero-dimensional array
is `0`.  The extracted objective values are never compared.  (Contrast
steppe.py line 468, where `fine` uses a list comprehension and `np.argmin`
genuinely minimizes.) -/
def npArgminOfMapObject {α β : Type} (_sel : α → β) (_sols : List α) : ℕ := 0

/-- Multi-strategy optimizer `search` (steppe.py lines 158-192).  The five
scipy optimizers (`opt.fmin`, `opt.fmin_powell`, `opt.fmin_bfgs`,
`opt.fmin_cg`, tight-tolerance Nelder-Mead `opt.minimize`) are external and
abstracted as functions from (objective, initial guess) to an
(argument, objective value) pair; the list construction of lines 168-189 and
the selection of lines 190-192 are embedded exactly. -/
def search {V : Type} (fmin fmin_powell fmin_bfgs fmin_cg nelderMead :
    (V → K) → V → V × K) (objective : V → K) (init : V) : V × K :=
  let sols := [fmin objective init, fmin_powell objective init,
    fmin_bfgs objective init, fmin_cg objective init, nelderMead objective init]
  sols.getD (npArgminOfMapObject (fun s => s.2) sols) (fmin objective init)

/-- Split of a character list at every occurrence of a delimiter character,
keeping empty fragments: the behaviour of Python `str.split` with an
explicit one-character separator (the source always splits on `','`). -/
def splitOnChar (c : Char) : List Char → List (List Char)
  | [] => [[]]
  | a :: rest =>
    match splitOnChar c rest with
    | [] => [[a]]
    | t :: ts => if a = c then [] :: t :: ts else (a :: t) :: ts

/-- Python `string.split(delimiter)` (steppe.py line 196) for the
one-character delimiters the source uses. -/
def pySplit (s : String) (delimiter : Char) : List String :=
  (splitOnChar delimiter s.toList).map List.asString

/-- Parameter-to-mapping adapter `make_vector2dictfunc` (steppe.py lines
195-200).  The outer `Option` is the construction-time check: `None` is
returned (after printing a message) only when a *truthy* (non-empty)
`initvec` is supplied whose length differs from the number of substrings.
The returned function is `lambda x: dict(zip(substrings, np.atleast_1d(x)))`;
`dict(zip(..))` is modelled as the list of zipped pairs (zip stops at the
shorter input; Python's dict would additionally deduplicate repeated names,
which no claim exercises). -/
def make_vector2dictfunc (string : String) (delimiter : Char) (initvec : Option (List K)) :
    Option (List K → List (String × K)) :=
  let substrings := pySplit string delimiter
  match initvec with
  | some iv =>
    if iv ≠ [] ∧ iv.length ≠ substrings.length then none
    else some fun x => substrings.zip x
  | none => some fun x => substrings.zip x

/-- Normalized L² error (steppe.py lines 28-45):
`sqrt(sum(|true - est|²)) / sqrt(sum(|true|²))`.  The square root `np.sqrt`
is an external numerical routine, abstracted as the `sqrt` argument. -/
def L2_norm_error (sqrt : K → K) (xtrue est : Matrix (Fin 2) (Fin N) K) : K :=
  sqrt (∑ i, ∑ j, |xtrue i j - est i j| ^ 2) / sqrt (∑ i, ∑ j, |xtrue i j| ^ 2)

/-- Model of `np.max` on a one-dimensional array (maximum of all elements;
`np.max` raises on an empty array, modelled as the junk value `0` — every
theorem that uses `npMax` assumes the list nonempty). -/
def npMax : List K → K
  | [] => 0
  | a :: l => l.foldr max a

/-- Model of `np.min` on a one-dimensional array (same conventions as
`npMax`). -/
def npMin : List K → K
  | [] => 0
  | a :: l => l.foldr min a

/-- Model of `np.argmin` on a genuine one-dimensional array: the first index
attaining the minimum. -/
def npArgmin (l : List K) : ℕ := l.indexOf (npMin l)

/-- The grid `np.arange(-180, 180.0, .25)` (steppe.py line 205):
1440 points `-180 + k/4` for `0 ≤ k < 1440`. -/
def gridList (K : Type) [LinearOrderedField K] : List K :=
  (List.range 1440).map fun (k : ℕ) => -180 + (k : K) * (1 / 4)

/-- Mapping a fallible computation over a list, failing if any element fails
(a Python `for` loop whose body may raise). -/
def optionMapList {α β : Type} (f : α → Option β) : List α → Option (List β)
  | [] => some []
  | a :: l => (f a).bind fun b => (optionMapList f l).bind fun bs => some (b :: bs)

/-- Body of the grid loop of `grid1dsearch` (steppe.py lines 207-212): the
fit error at grid value `l` — forward-project at `lon_0 = l`, remove the
residual affine transform, return the normalized L² error against the pixel
stack.  `projf` abstracts `l ↦ Proj(proj=proj, lon_0=l)`. -/
def gridErrAt (sqrt : K → K) (projf : K → K → K → K × K) (lon lat x y : Fin N → K)
    (l : K) : Option K :=
  (remove_affine (pixMat x y) (projMat (projf l) lon lat) none false).map
    (fun r => L2_norm_error sqrt (pixMat x y) r.qnew)

/-- Grid search `grid1dsearch` (steppe.py lines 203-231, plotting omitted):
evaluate the fit error at every grid point, then recompute the fitted output
at the grid point of minimum error (lines 226-229) and return
`(grid, errs, xout/yout)`. -/
def grid1dsearch (sqrt : K → K) (projf : K → K → K → K × K) (lon lat x y : Fin N → K) :
    Option (List K × List K × Matrix (Fin 2) (Fin N) K) :=
  (optionMapList (gridErrAt sqrt projf lon lat x y) (gridList K)).bind fun errs =>
    (remove_affine (pixMat x y)
        (projMat (projf ((gridList K).getD (npArgmin errs) 0)) lon lat) none false).bind
      fun r => some (gridList K, errs, r.qnew)

/-- One tick dictionary `{'deg': ..., 'px': ..., 'py': ...}` as built by
`fineLoad` (steppe.py lines 474-475). -/
structure Ticks (K : Type) where
  deg : List K
  px : List K
  py : List K

/-- External pyproj projection object `Proj(proj=..., lon_0=...)` as
constructed at steppe.py line 407: only its identifying parameters. -/
structure ProjSpec (K : Type) where
  proj : String
  lon_0 : K

/-- Parameter unpacking `listToParams` (steppe.py lines 403-408):
`A = reshape(params[0:4], (2,2)) * 1e-6`, `b = vstack([b0, b1]) * 1e2`,
`p = Proj(proj='wintri', lon_0=lon)`.  The translation column `b` is
modelled as a vector.  Unpacking a list of length ≠ 7 raises, hence the
`Option`. -/
def listToParams (params : List K) :
    Option (Matrix (Fin 2) (Fin 2) K × (Fin 2 → K) × ProjSpec K) :=
  match params with
  | [A0, A1, A2, A3, b0, b1, lon] =>
    some ((1 / 1000000 : K) • !![A0, A1; A2, A3], (100 : K) • ![b0, b1], ⟨"wintri", lon⟩)
  | _ => none

/-- Initial-vector packing `paramsToInit` (steppe.py lines 411-414):
`A * 1e6` raveled row-major, then `b.ravel() * 1e-2`, then the longitude. -/
def paramsToInit (A : Matrix (Fin 2) (Fin 2) K) (b : Fin 2 → K) (pLonInit : K) : List K :=
  [1000000 * A 0 0, 1000000 * A 0 1, 1000000 * A 1 0, 1000000 * A 1 1,
    (1 / 100) * b 0, (1 / 100) * b 1, pLonInit]

/-- Cost function `minimize` inside `fine` (steppe.py lines 421-430).
`pixToLonlat` abstracts the composite
`lambda x, y: p(*np.linalg.solve(A, np.vstack([x, y]) - b), inverse=True)`
(line 419) at the current parameters: pixel `(x, y) ↦ (lon, lat)` through
the inverse affine map and the external inverse projection.  Latitude ticks
contribute their latitude component, longitude ticks their longitude
component.  `sse = true` sums the squared residuals; `sse = false` is
`np.max([np.max((lonsHat - deg)**2), np.max((latsHat - deg)**2)])`. -/
def fineObjective (sse : Bool) (pixToLonlat : K → K → K × K)
    (lonsLocs latsLocs : Ticks K) : K :=
  let latsHat := (latsLocs.px.zip latsLocs.py).map fun q => (pixToLonlat q.1 q.2).2
  let lonsHat := (lonsLocs.px.zip lonsLocs.py).map fun q => (pixToLonlat q.1 q.2).1
  let lonsSq := (lonsHat.zip lonsLocs.deg).map fun q => (q.1 - q.2) ^ 2
  let latsSq := (latsHat.zip latsLocs.deg).map fun q => (q.1 - q.2) ^ 2
  if sse then lonsSq.sum + latsSq.sum
  else max (npMax lonsSq) (npMax latsSq)

/-- The quantity named by the spec for the worst-case mode ("the maximum
absolute residual across the longitude-tick and latitude-tick sets, only the
matching axis residual measured per tick type"), written from the spec's
words for comparison against `fineObjective false`. -/
def specMaxAbsResidual (pixToLonlat : K → K → K × K)
    (lonsLocs latsLocs : Ticks K) : K :=
  let latsHat := (latsLocs.px.zip latsLocs.py).map fun q => (pixToLonlat q.1 q.2).2
  let lonsHat := (lonsLocs.px.zip lonsLocs.py).map fun q => (pixToLonlat q.1 q.2).1
  let lonsAbs := (lonsHat.zip lonsLocs.deg).map fun q => |q.1 - q.2|
  let latsAbs := (latsHat.zip latsLocs.deg).map fun q => |q.1 - q.2|
  max (npMax lonsAbs) (npMax latsAbs)

/-- One row of a QGIS control-point / tick file as loaded by `loaddata`
(steppe.py lines 10-25): `(lon, lat, x, y)`. -/
structure GcpRow (K : Type) where
  lon : K
  lat : K
  x : K
  y : K
deriving DecidableEq

/-- Row selection `lon == 0` (steppe.py line 474): rows used for the
latitude ticks. -/
def latSelRows (rows : List (GcpRow K)) : List (GcpRow K) :=
  rows.filter fun r => r.lon == 0

/-- Row selection `lat == 0` (steppe.py line 475): rows used for the
longitude ticks. -/
def lonSelRows (rows : List (GcpRow K)) : List (GcpRow K) :=
  rows.filter fun r => r.lat == 0

/-- Model of `fineLoad` (steppe.py lines 472-476): split the loaded rows
into the longitude-tick and latitude-tick dictionaries; returns
`(lonTicks, latTicks)`. -/
def fineLoad (rows : List (GcpRow K)) : Ticks K × Ticks K :=
  let latTicks : Ticks K :=
    ⟨(latSelRows rows).map GcpRow.lat, (latSelRows rows).map GcpRow.x,
      (latSelRows rows).map GcpRow.y⟩
  let lonTicks : Ticks K :=
    ⟨(lonSelRows rows).map GcpRow.lon, (lonSelRows rows).map GcpRow.x,
      (lonSelRows rows).map GcpRow.y⟩
  (lonTicks, latTicks)

/-- Pixel locations of a tick set. -/
def tickPoints (t : Ticks K) : List (K × K) := t.px.zip t.py

/-- Concrete three-point data set used by witnesses: control points with
`lon = x` and `lat = y`, at `(0,0)`, `(1,0)`, `(0,1)`. -/
def lonC : Fin 3 → ℚ := ![0, 1, 0]

/-- Concrete latitudes for the witness data set. -/
def latC : Fin 3 → ℚ := ![0, 0, 1]

/-- Pixel stack of the witness data set (equal to its lon/lat stack). -/
def xyC : Matrix (Fin 2) (Fin 3) ℚ := pixMat lonC latC

/-- Witness projection family: identity for every parameter value. -/
def projfC : ℚ → ℚ → ℚ → ℚ × ℚ := fun _ lon lat => (lon, lat)

/-- Normal matrix of the witness data set. -/
def QC : Matrix (Fin 3) (Fin 3) ℚ := !![1, 0, 1; 0, 1, 1; 1, 1, 3]

/-- Solved coefficient block for the witness data set (identity transform). -/
def XC : Matrix (Fin 3) (Fin 2) ℚ := !![1, 0; 0, 1; 0, 0]

/-- `remove_affine` result on the witness data set: identity `Ahat`, zero
`that`, fitted output equal to the input. -/
def rC : AffineResult 2 3 ℚ := ⟨xyC, some ⟨QC⟩, 1, 0⟩

theorem mul_solveUnit (Q : Matrix (Fin n) (Fin n) K) (b : Matrix (Fin n) (Fin m) K)
    (h : IsUnit Q.det) : Q * solveUnit Q b = b := by
  unfold solveUnit
  rw [Matrix.mul_smul, ← Matrix.mul_assoc, Matrix.mul_adjugate, Matrix.smul_mul,
    Matrix.one_mul, smul_smul, inv_mul_cancel₀ h.ne_zero, one_smul]

theorem solveUnit_unique (Q : Matrix (Fin n) (Fin n) K) (b : Matrix (Fin n) (Fin m) K)
    (X : Matrix (Fin n) (Fin m) K) (h : IsUnit Q.det) (hx : Q * X = b) :
    solveUnit Q b = X := by
  unfold solveUnit
  rw [← hx, ← Matrix.mul_assoc, Matrix.adjugate_mul, Matrix.smul_mul,
    Matrix.one_mul, smul_smul, inv_mul_cancel₀ h.ne_zero, one_smul]

theorem cholOk_isUnit_det (Q : Matrix (Fin (n + 1)) (Fin (n + 1)) K)
    (h : cholOk Q) : IsUnit Q.det := by
  have hlast := h (Fin.last n)
  have hid : leadingMinor Q (Fin.last n) = Q := by
    unfold leadingMinor
    have hfun : (Fin.castLE (Fin.last n).isLt : Fin ((Fin.last n : ℕ) + 1) → Fin (n + 1)) = id :=
      funext fun i => rfl
    rw [hfun, Matrix.submatrix_id_id]
  rw [hid] at hlast
  exact isUnit_iff_ne_zero.mpr hlast.ne'

theorem qaug_transpose_mul_stack (q : Matrix (Fin d) (Fin N) K)
    (A : Matrix (Fin d) (Fin d) K) (t : Fin d → K) :
    (qaug q)ᵀ * stackMat A t = (affineApply A t q)ᵀ := by
  ext k j
  rw [Matrix.mul_apply]
  simp only [qaug, stackMat, affineApply, Matrix.transpose_apply, Matrix.add_apply,
    Matrix.of_apply, Matrix.mul_apply]
  rw [Fin.sum_univ_castSucc]
  have hlast : ¬ ((Fin.last d : ℕ) < d) := by simp
  rw [dif_neg hlast, dif_neg hlast, one_mul]
  congr 1
  refine Finset.sum_congr rfl fun i _ => ?_
  have hi : ((Fin.castSucc i : ℕ)) < d := by simp
  rw [dif_pos hi, dif_pos hi]
  exact mul_comm (q i k) (A j i)

theorem mkResult_stack (q : Matrix (Fin d) (Fin N) K) (A : Matrix (Fin d) (Fin d) K)
    (t : Fin d → K) (qf : Option (CholFactor (d + 1) K)) :
    mkResult q (stackMat A t) qf = ⟨affineApply A t q, qf, A, t⟩ := by
  have hA : (Matrix.of fun i j => stackMat A t (Fin.castSucc j) i) = A := by
    ext i j
    simp only [Matrix.of_apply, stackMat]
    have hj : ((Fin.castSucc j : ℕ)) < d := by simp
    rw [dif_pos hj]
    rfl
  have ht : (fun i => stackMat A t (Fin.last d) i) = t := by
    funext i
    simp only [stackMat, Matrix.of_apply]
    rw [dif_neg (by simp)]
  simp only [mkResult, hA, ht, affineApply]

theorem remove_affine_exact (q : Matrix (Fin d) (Fin N) K)
    (A : Matrix (Fin d) (Fin d) K) (t : Fin d → K) (h : cholOk (normalMat q)) :
    remove_affine (affineApply A t q) q none false =
      some ⟨affineApply A t q, some ⟨normalMat q⟩, A, t⟩ := by
  have hu := cholOk_isUnit_det _ h
  have hcf : cho_factor (normalMat q) = some ⟨normalMat q⟩ := by
    unfold cho_factor
    rw [if_pos h]
  have hsol : cho_solve ⟨normalMat q⟩ (qaug q * (affineApply A t q)ᵀ) = stackMat A t := by
    unfold cho_solve
    apply solveUnit_unique _ _ _ hu
    rw [normalMat, Matrix.mul_assoc, qaug_transpose_mul_stack]
  unfold remove_affine
  rw [hcf]
  simp only [Bool.false_eq_true, if_false, hsol, mkResult_stack]

theorem cholOk_q1 : cholOk (normalMat (!![0, 1] : Matrix (Fin 1) (Fin 2) ℚ)) := by
  have hQ : normalMat (!![0, 1] : Matrix (Fin 1) (Fin 2) ℚ) = !![1, 1; 1, 2] := by
    ext i j
    fin_cases i <;> fin_cases j <;>
      simp [normalMat, qaug, Matrix.mul_apply, Fin.sum_univ_succ]
  rw [hQ]
  intro k
  fin_cases k
  · show (0 : ℚ) < (leadingMinor !![1, 1; 1, 2] ⟨0, by norm_num⟩).det
    have hm : leadingMinor (!![1, 1; 1, 2] : Matrix (Fin 2) (Fin 2) ℚ) ⟨0, by norm_num⟩ =
        !![1] := by decide
    rw [hm, Matrix.det_fin_one]
    norm_num
  · show (0 : ℚ) < (leadingMinor !![1, 1; 1, 2] ⟨1, by norm_num⟩).det
    have hm : leadingMinor (!![1, 1; 1, 2] : Matrix (Fin 2) (Fin 2) ℚ) ⟨1, by norm_num⟩ =
        !![1, 1; 1, 2] := by decide
    rw [hm, Matrix.det_fin_two]
    norm_num

/-- C2: a noise-free affine round trip through `remove_affine` recovers the
transform exactly.  For every source point set `q` with a nondegenerate
design (the normal matrix passes the Cholesky positivity test, which
requires `N ≥ d+1`) and every affine map `(A, t)`, calling `remove_affine`
with `p = A·q + t` returns `Ahat = A`, `that = t`, and `qnew = p` exactly,
together with the factorization of the normal matrix. -/
theorem remove_affine_roundtrip (q : Matrix (Fin d) (Fin N) K)
    (A : Matrix (Fin d) (Fin d) K) (t : Fin d → K) (h : cholOk (normalMat q)) :
    remove_affine (affineApply A t q) q none false =
      some ⟨affineApply A t q, some ⟨normalMat q⟩, A, t⟩ :=
  remove_affine_exact q A t h

/-- Witness for C2 at a concrete input: `d = 1`, `N = 2`, `q = [0 1]`,
`A = [2]`, `t = [3]`. -/
theorem remove_affine_roundtrip_witness :
    remove_affine (affineApply !![(2 : ℚ)] ![3] !![0, 1]) !![0, 1] none false =
      some ⟨affineApply !![(2 : ℚ)] ![3] !![0, 1], some ⟨normalMat !![0, 1]⟩, !![2], ![3]⟩ :=
  remove_affine_roundtrip !![0, 1] !![2] ![3] cholOk_q1

/-- C5: with a well-conditioned design (Cholesky test passes), the fitted
output of `remove_affine` agrees exactly between the cached-factorization
path, the reuse of the returned factorization, and the direct
skip-factorization least-squares path. -/
theorem remove_affine_modes_agree (p q : Matrix (Fin d) (Fin N) K)
    (h : cholOk (normalMat q)) :
    ∃ r1 r2 r3 : AffineResult d N K,
      remove_affine p q none false = some r1 ∧
      remove_affine p q none true = some r2 ∧
      remove_affine p q r1.q_factor false = some r3 ∧
      r1.qnew = r2.qnew ∧ r1.qnew = r3.qnew := by
  have hu := cholOk_isUnit_det _ h
  have hcf : cho_factor (normalMat q) = some ⟨normalMat q⟩ := by
    unfold cho_factor
    rw [if_pos h]
  have hlstsq : lstsqSolve (normalMat q) (qaug q * pᵀ) =
      solveUnit (normalMat q) (qaug q * pᵀ) := by
    unfold lstsqSolve
    apply solveUnit_unique
    · rw [Matrix.det_mul, Matrix.det_transpose]
      exact hu.mul hu
    · rw [Matrix.mul_assoc, mul_solveUnit _ _ hu]
  refine ⟨mkResult q (cho_solve ⟨normalMat q⟩ (qaug q * pᵀ)) (some ⟨normalMat q⟩),
    mkResult q (lstsqSolve (normalMat q) (qaug q * pᵀ)) none,
    mkResult q (cho_solve ⟨normalMat q⟩ (qaug q * pᵀ)) (some ⟨normalMat q⟩),
    ?_, rfl, rfl, ?_, rfl⟩
  · unfold remove_affine
    rw [hcf]
    simp only [Bool.false_eq_true, if_false]
  · simp only [mkResult, cho_solve, hlstsq]

/-- Witness for C5 at the concrete design of the C2 witness. -/
theorem remove_affine_modes_agree_witness :
    ∃ r1 r2 r3 : AffineResult 1 2 ℚ,
      remove_affine !![3, 5] !![0, 1] none false = some r1 ∧
      remove_affine !![3, 5] !![0, 1] none true = some r2 ∧
      remove_affine !![3, 5] !![0, 1] r1.q_factor false = some r3 ∧
      r1.qnew = r2.qnew ∧ r1.qnew = r3.qnew :=
  remove_affine_modes_agree !![3, 5] !![0, 1] cholOk_q1

theorem not_cholOk_underdetermined (q : Matrix (Fin d) (Fin N) K) (hN : N < d + 1) :
    ¬ cholOk (normalMat q) := by
  intro hc
  have hu := cholOk_isUnit_det _ hc
  have hrank : (normalMat q).rank = d + 1 := by
    rw [Matrix.rank_of_isUnit _ ((Matrix.isUnit_iff_isUnit_det _).mpr hu)]
    simp
  have hle : (normalMat q).rank ≤ N := by
    calc (normalMat q).rank ≤ (qaug q).rank := by
          rw [normalMat]
          exact Matrix.rank_mul_le_left _ _
      _ ≤ N := Matrix.rank_le_width _
  omega

/-- C4 (amended): with fewer than `d+1` points the normal matrix is
singular; the factorize-and-cache mode raises (Cholesky failure) and never
silently returns, but the skip-factorization mode solves the singular system
by least squares (`np.linalg.lstsq` does not raise) and silently returns a
result. -/
theorem remove_affine_underdetermined (p q : Matrix (Fin d) (Fin N) K)
    (hN : N < d + 1) :
    remove_affine p q none false = none ∧
      (remove_affine p q none true).isSome = true := by
  constructor
  · have hcf : cho_factor (normalMat q) = none := by
      unfold cho_factor
      rw [if_neg (not_cholOk_underdetermined q hN)]
    unfold remove_affine
    rw [hcf]
    simp
  · rfl

/-- Counterexample to C4 as stated: with zero control points (`d = 2`,
`N = 0`) the skip-factorization mode does not raise — `remove_affine`
silently returns a result. -/
theorem remove_affine_skip_silently_returns :
    (remove_affine (K := ℚ) (d := 2) (N := 0) 0 0 none true).isSome = true := rfl

/-- Witness for the amended C4 at the zero-point input. -/
theorem remove_affine_underdetermined_witness :
    remove_affine (K := ℚ) (d := 2) (N := 0) 0 0 none false = none ∧
      (remove_affine (K := ℚ) (d := 2) (N := 0) 0 0 none true).isSome = true :=
  remove_affine_underdetermined 0 0 (by norm_num)

/-- C1 (evaluation of the code at a failing input): `search` returns the
first strategy's result even though the second strategy returned a strictly
lower objective value, because `np.argmin` applied to a Python 3 `map`
object yields index 0 without inspecting the costs.  The five constant
functions stand for optimizer runs returning objective values
5, 3, 4, 4, 4. -/
theorem search_ignores_costs :
    search (K := ℚ) (V := ℕ) (fun _ _ => (1, 5)) (fun _ _ => (2, 3)) (fun _ _ => (3, 4))
        (fun _ _ => (4, 4)) (fun _ _ => (5, 4)) (fun _ => 0) 0 = (1, 5) ∧ (3 : ℚ) < 5 :=
  ⟨rfl, by norm_num⟩

/-- C10: `listToParams` inverts `paramsToInit` exactly — the `1e-6`/`1e6`
scalings of the affine coefficients and the `1e2`/`1e-2` scalings of the
translation cancel, and the wintri projection is rebuilt with the same
`lon_0`, so one fine-tune iteration's output restarts the next at the same
transform. -/
theorem listToParams_paramsToInit (A : Matrix (Fin 2) (Fin 2) K) (b : Fin 2 → K) (lon : K) :
    listToParams (paramsToInit A b lon) = some (A, b, ⟨"wintri", lon⟩) := by
  have hred : listToParams (paramsToInit A b lon) =
      some ((1 / 1000000 : K) •
          !![1000000 * A 0 0, 1000000 * A 0 1; 1000000 * A 1 0, 1000000 * A 1 1],
        (100 : K) • ![(1 / 100) * b 0, (1 / 100) * b 1], ⟨"wintri", lon⟩) := rfl
  have hA : (1 / 1000000 : K) •
      !![1000000 * A 0 0, 1000000 * A 0 1; 1000000 * A 1 0, 1000000 * A 1 1] = A := by
    have hmat : (!![1000000 * A 0 0, 1000000 * A 0 1; 1000000 * A 1 0, 1000000 * A 1 1] :
        Matrix (Fin 2) (Fin 2) K) = (1000000 : K) • !![A 0 0, A 0 1; A 1 0, A 1 1] := by
      ext i j
      fin_cases i <;> fin_cases j <;> simp
    rw [hmat, smul_smul]
    norm_num
    exact (Matrix.eta_fin_two A).symm
  have hb : (100 : K) • ![(1 / 100) * b 0, (1 / 100) * b 1] = b := by
    have hvec : (![(1 / 100) * b 0, (1 / 100) * b 1] : Fin 2 → K) =
        (1 / 100 : K) • ![b 0, b 1] := by
      rw [Matrix.smul_vec2]
      rfl
    rw [hvec, smul_smul]
    norm_num
    funext i
    fin_cases i <;> simp
  rw [hred, hA, hb]

/-- Counterexample to C3 as stated: with two names and one value the adapter
raises no error and silently returns the zip-truncated one-entry mapping. -/
theorem make_vector2dictfunc_truncates :
    (make_vector2dictfunc "a,b" ',' (none : Option (List ℚ))).map (fun f => f [1]) =
      some [("a", (1 : ℚ))] := by decide

/-- C3 (amended): the constructor checks lengths only against a supplied
truthy (non-empty) `initvec`, printing a message and returning `None` on
that mismatch; with no `initvec` it always returns the mapping function,
which pairs names with values by position and silently truncates to the
shorter of the name list and the value vector. -/
theorem make_vector2dictfunc_behavior (s : String) (delim : Char) (iv v : List K) :
    (iv ≠ [] → iv.length ≠ (pySplit s delim).length →
      make_vector2dictfunc s delim (some iv) = none) ∧
    (∃ f, make_vector2dictfunc s delim (none : Option (List K)) = some f ∧
      f v = (pySplit s delim).zip v ∧
      (f v).length = min (pySplit s delim).length v.length) := by
  constructor
  · intro h1 h2
    simp only [make_vector2dictfunc]
    rw [if_pos ⟨h1, h2⟩]
  · exact ⟨_, rfl, rfl, List.length_zip _ _⟩

/-- Witness for the amended C3: names `"a,b"`, a mismatched `initvec` of
length one, and a one-element value vector. -/
theorem make_vector2dictfunc_behavior_witness :
    make_vector2dictfunc "a,b" ',' (some [(1 : ℚ)]) = none ∧
    (∃ f, make_vector2dictfunc "a,b" ',' (none : Option (List ℚ)) = some f ∧
      f [1] = [("a", 1)] ∧ (f [1]).length = 1) := by
  have h := make_vector2dictfunc_behavior (K := ℚ) "a,b" ',' [1] [1]
  refine ⟨h.1 (by decide) (by decide), ?_⟩
  obtain ⟨f, hf, hv, hl⟩ := h.2
  refine ⟨f, hf, ?_, ?_⟩
  · rw [hv]
    decide
  · rw [hl]
    decide

/-- Counterexample to C9 as stated: a tick row at the graticule origin
(`lon = 0` and `lat = 0`) is selected into both tick sets, whose pixel
point lists then share the point `(5, 7)`. -/
theorem fineLoad_origin_row_shared :
    ((5 : ℚ), (7 : ℚ)) ∈ tickPoints (fineLoad [⟨0, 0, 5, 7⟩]).1 ∧
      ((5 : ℚ), (7 : ℚ)) ∈ tickPoints (fineLoad [⟨0, 0, 5, 7⟩]).2 := by
  constructor <;> decide

/-- C9 (amended): the two tick sets returned by `fineLoad` share no pixel
tick point, provided no input row has `lon = 0` and `lat = 0`
simultaneously (an origin row is selected into both sets) and the rows'
pixel coordinates are pairwise distinct. -/
theorem fineLoad_disjoint_no_origin (rows : List (GcpRow K))
    (h0 : ∀ r ∈ rows, ¬(r.lon = 0 ∧ r.lat = 0))
    (hpix : (rows.map fun r => (r.x, r.y)).Nodup) :
    ∀ pt ∈ tickPoints (fineLoad rows).1, pt ∉ tickPoints (fineLoad rows).2 := by
  intro pt hlon hlat
  have hzip1 : tickPoints (fineLoad rows).1 =
      (lonSelRows rows).map fun r => (r.x, r.y) := by
    simp only [tickPoints, fineLoad]
    rw [List.zip_map']
  have hzip2 : tickPoints (fineLoad rows).2 =
      (latSelRows rows).map fun r => (r.x, r.y) := by
    simp only [tickPoints, fineLoad]
    rw [List.zip_map']
  rw [hzip1] at hlon
  rw [hzip2] at hlat
  obtain ⟨r1, hr1, hpt1⟩ := List.mem_map.mp hlon
  obtain ⟨r2, hr2, hpt2⟩ := List.mem_map.mp hlat
  have hmem1 : r1 ∈ rows := List.mem_of_mem_filter hr1
  have hmem2 : r2 ∈ rows := List.mem_of_mem_filter hr2
  have heq : r1 = r2 := by
    apply List.inj_on_of_nodup_map hpix hmem1 hmem2
    rw [hpt1, hpt2]
  have hlat0 : r1.lat = 0 := by
    have := List.of_mem_filter hr1
    simpa using this
  have hlon0 : r1.lon = 0 := by
    have := List.of_mem_filter hr2
    rw [← heq] at this
    simpa using this
  exact h0 r1 hmem1 ⟨hlon0, hlat0⟩

/-- Witness for the amended C9: two off-origin rows with distinct pixels;
the longitude-tick pixel point `(5, 6)` is not among the latitude-tick
pixel points. -/
theorem fineLoad_disjoint_no_origin_witness :
    ((5 : ℚ), (6 : ℚ)) ∉ tickPoints (fineLoad [(⟨0, 3, 1, 2⟩ : GcpRow ℚ), ⟨4, 0, 5, 6⟩]).2 :=
  fineLoad_disjoint_no_origin [(⟨0, 3, 1, 2⟩ : GcpRow ℚ), ⟨4, 0, 5, 6⟩]
    (by decide) (by decide) (5, 6) (by decide)

theorem foldr_max_abs_nonneg {α : Type} (g : α → K) (a : α) (l : List α) :
    0 ≤ (l.map fun z => |g z|).foldr max |g a| := by
  induction l with
  | nil => exact abs_nonneg _
  | cons b l ih =>
    simp only [List.map_cons, List.foldr_cons]
    exact le_max_of_le_right ih

theorem max_sq_of_nonneg (x y : K) (hx : 0 ≤ x) (hy : 0 ≤ y) :
    max x y ^ 2 = max (x ^ 2) (y ^ 2) := by
  rcases le_total x y with h | h
  · rw [max_eq_right h, max_eq_right (pow_le_pow_left₀ hx h 2)]
  · rw [max_eq_left h, max_eq_left (pow_le_pow_left₀ hy h 2)]

theorem npMax_map_sq {α : Type} (g : α → K) (a : α) (l : List α) :
    npMax ((a :: l).map fun z => (g z) ^ 2) =
      (npMax ((a :: l).map fun z => |g z|)) ^ 2 := by
  simp only [List.map_cons]
  show ((l.map fun z => (g z) ^ 2).foldr max ((g a) ^ 2)) =
    ((l.map fun z => |g z|).foldr max |g a|) ^ 2
  induction l with
  | nil => exact (sq_abs (g a)).symm
  | cons b l ih =>
    simp only [List.map_cons, List.foldr_cons]
    rw [ih, ← sq_abs (g b),
      ← max_sq_of_nonneg _ _ (abs_nonneg _) (foldr_max_abs_nonneg g a l)]

theorem npMax_map_nonneg {α : Type} (g : α → K) (a : α) (l : List α) :
    0 ≤ npMax ((a :: l).map fun z => |g z|) := by
  simp only [List.map_cons]
  exact foldr_max_abs_nonneg g a l

/-- Counterexample to C6 as stated: the worst-case cost returned by the
fine-tune objective differs from the spec's "maximum absolute residual" —
with a single longitude tick of residual 2 the code returns 4 (the maximum
*squared* residual), not 2. -/
theorem fineObjective_ne_specMaxAbs :
    fineObjective false (fun a b => (a, b)) (⟨[0], [2], [0]⟩ : Ticks ℚ) ⟨[0], [0], [0]⟩ ≠
      specMaxAbsResidual (fun a b => (a, b)) (⟨[0], [2], [0]⟩ : Ticks ℚ) ⟨[0], [0], [0]⟩ := by
  have h1 : fineObjective false (fun a b => (a, b)) (⟨[0], [2], [0]⟩ : Ticks ℚ)
      ⟨[0], [0], [0]⟩ = 4 := by
    norm_num [fineObjective, npMax, max_def]
  have h2 : specMaxAbsResidual (fun a b => (a, b)) (⟨[0], [2], [0]⟩ : Ticks ℚ)
      ⟨[0], [0], [0]⟩ = 2 := by
    norm_num [specMaxAbsResidual, npMax, max_def]
  rw [h1, h2]
  norm_num

/-- C6 (amended): in worst-case mode (`sse = False`) the fine-tune cost
returns the maximum *squared* residual — the square of the maximum absolute
residual — across the longitude-tick and latitude-tick sets, each tick
contributing only its matching-axis residual (longitude component for
longitude ticks, latitude component for latitude ticks); both tick sets are
assumed nonempty (`np.max` raises on an empty array). -/
theorem fineObjective_worstcase_eq_sq (pixToLonlat : K → K → K × K)
    (lonsLocs latsLocs : Ticks K)
    (hlon : (lonsLocs.px.zip lonsLocs.py).zip lonsLocs.deg ≠ [])
    (hlat : (latsLocs.px.zip latsLocs.py).zip latsLocs.deg ≠ []) :
    fineObjective false pixToLonlat lonsLocs latsLocs =
      (specMaxAbsResidual pixToLonlat lonsLocs latsLocs) ^ 2 := by
  obtain ⟨pl, ll, hl1⟩ := List.exists_cons_of_ne_nil hlon
  obtain ⟨pt, lt, hl2⟩ := List.exists_cons_of_ne_nil hlat
  simp only [fineObjective, specMaxAbsResidual, Bool.false_eq_true, if_false,
    List.zip_map_left, List.map_map, Function.comp_def, Prod.map_fst, Prod.map_snd, id_eq]
  rw [hl1, hl2]
  rw [npMax_map_sq (fun z => (pixToLonlat z.1.1 z.1.2).1 - z.2) pl ll]
  rw [npMax_map_sq (fun z => (pixToLonlat z.1.1 z.1.2).2 - z.2) pt lt]
  rw [max_sq_of_nonneg _ _ (npMax_map_nonneg _ pl ll) (npMax_map_nonneg _ pt lt)]

/-- Witness for the amended C6 at the counterexample's input: the code
returns `4 = 2²`. -/
theorem fineObjective_worstcase_eq_sq_witness :
    fineObjective false (fun a b => (a, b)) (⟨[0], [2], [0]⟩ : Ticks ℚ) ⟨[0], [0], [0]⟩ =
      (specMaxAbsResidual (fun a b => (a, b)) (⟨[0], [2], [0]⟩ : Ticks ℚ)
        ⟨[0], [0], [0]⟩) ^ 2 :=
  fineObjective_worstcase_eq_sq _ _ _ (by decide) (by decide)

theorem normalMat_xyC : normalMat xyC = QC := by
  ext i j
  fin_cases i <;> fin_cases j <;>
    simp [normalMat, qaug, xyC, pixMat, lonC, latC, QC, Matrix.mul_apply, Fin.sum_univ_succ,
      Matrix.vecHead, Matrix.vecTail]

theorem cholOk_QC : cholOk QC := by
  intro k
  fin_cases k
  · show (0 : ℚ) < (leadingMinor QC ⟨0, by norm_num⟩).det
    have hm : leadingMinor QC ⟨0, by norm_num⟩ = !![1] := by decide
    rw [hm, Matrix.det_fin_one]
    norm_num
  · show (0 : ℚ) < (leadingMinor QC ⟨1, by norm_num⟩).det
    have hm : leadingMinor QC ⟨1, by norm_num⟩ = !![1, 0; 0, 1] := by decide
    rw [hm, Matrix.det_fin_two]
    norm_num
  · show (0 : ℚ) < (leadingMinor QC ⟨2, by norm_num⟩).det
    have hm : leadingMinor QC ⟨2, by norm_num⟩ = QC := by decide
    rw [hm, QC, Matrix.det_fin_three]
    norm_num [Matrix.vecHead, Matrix.vecTail]

theorem cholOk_normalMat_xyC : cholOk (normalMat xyC) := by
  rw [normalMat_xyC]
  exact cholOk_QC

theorem affineApply_one_zero (q : Matrix (Fin d) (Fin N) K) : affineApply 1 0 q = q := by
  ext i j
  simp [affineApply, Matrix.add_apply, Matrix.one_mul]

theorem fit_xyC : remove_affine xyC xyC none false = some rC := by
  have h := remove_affine_exact xyC 1 0 cholOk_normalMat_xyC
  rw [affineApply_one_zero] at h
  rw [normalMat_xyC] at h
  exact h

/-- C7: for any parameter vector (abstracted by its external projection
composite `project`) the `search` objective equals the sum over both axes
and all control points of the squared residuals between observed pixels and
the affine-corrected projections, and — when the residual fit succeeds — it
is zero exactly when the corrected projections reproduce the pixel stack. -/
theorem searchObjective_spec (project : K → K → K × K) (lon lat x y : Fin N → K)
    (r : AffineResult 2 N K)
    (h : remove_affine (pixMat x y) (projMat project lon lat) none false = some r) :
    searchObjective project lon lat x y =
      some (∑ i, ∑ j, (pixMat x y i j - r.qnew i j) ^ 2) ∧
    (searchObjective project lon lat x y = some 0 ↔ r.qnew = pixMat x y) := by
  have h1 : searchObjective project lon lat x y =
      some (∑ i, ∑ j, (pixMat x y i j - r.qnew i j) ^ 2) := by
    unfold searchObjective
    rw [h]
    rfl
  refine ⟨h1, ?_⟩
  rw [h1]
  constructor
  · intro h0
    have hsum : (∑ i, ∑ j, (pixMat x y i j - r.qnew i j) ^ 2) = 0 := by
      simpa using h0
    ext i j
    have hrow := (Finset.sum_eq_zero_iff_of_nonneg fun i _ =>
      Finset.sum_nonneg fun j _ => sq_nonneg _).mp hsum i (Finset.mem_univ i)
    have hcell := (Finset.sum_eq_zero_iff_of_nonneg fun j _ =>
      sq_nonneg _).mp hrow j (Finset.mem_univ j)
    have hzero : pixMat x y i j - r.qnew i j = 0 :=
      pow_eq_zero_iff (two_ne_zero) |>.mp hcell
    linarith [hzero]
  · intro he
    rw [he]
    simp

/-- Witness for C7 on the concrete three-point data set with the identity
projection, where the fit is exact and the objective is zero. -/
theorem searchObjective_spec_witness :
    searchObjective (projfC 0) lonC latC lonC latC =
      some (∑ i, ∑ j, (pixMat lonC latC i j - rC.qnew i j) ^ 2) ∧
    (searchObjective (projfC 0) lonC latC lonC latC = some 0 ↔
      rC.qnew = pixMat lonC latC) :=
  searchObjective_spec (projfC 0) lonC latC lonC latC rC fit_xyC

theorem optionMapList_some {α β : Type} (f : α → Option β) (l : List α) (ys : List β)
    (h : optionMapList f l = some ys) :
    ys.length = l.length ∧ ∀ p ∈ l.zip ys, f p.1 = some p.2 := by
  induction l generalizing ys with
  | nil =>
    simp only [optionMapList, Option.some.injEq] at h
    subst h
    simp
  | cons a l ih =>
    simp only [optionMapList] at h
    rw [Option.bind_eq_some] at h
    obtain ⟨b, hfa, h⟩ := h
    rw [Option.bind_eq_some] at h
    obtain ⟨bs, hrest, h⟩ := h
    simp only [Option.some.injEq] at h
    subst h
    obtain ⟨h1, h2⟩ := ih bs hrest
    refine ⟨by simp [h1], ?_⟩
    intro p hp
    rw [List.zip_cons_cons] at hp
    rcases List.mem_cons.mp hp with hp | hp
    · rw [hp]
      exact hfa
    · exact h2 p hp

theorem optionMapList_map {α β : Type} (f : α → Option β) (g : α → β) (l : List α)
    (h : ∀ z ∈ l, f z = some (g z)) : optionMapList f l = some (l.map g) := by
  induction l with
  | nil => rfl
  | cons a l ih =>
    have ha := h a (List.mem_cons_self a l)
    have hl := ih fun z hz => h z (List.mem_cons_of_mem a hz)
    simp only [optionMapList]
    rw [ha, hl]
    rfl

theorem gridList_length : (gridList K).length = 1440 := by
  simp [gridList]

theorem mem_gridList (v : K) :
    v ∈ gridList K ↔ ∃ k : ℕ, k < 1440 ∧ v = -180 + (k : K) * (1 / 4) := by
  constructor
  · intro hv
    obtain ⟨k, hk, hkv⟩ := List.mem_map.mp hv
    exact ⟨k, List.mem_range.mp hk, hkv.symm⟩
  · rintro ⟨k, hk, rfl⟩
    exact List.mem_map.mpr ⟨k, List.mem_range.mpr hk, rfl⟩

/-- C8: whenever `grid1dsearch` returns, the returned grid is the uniform
1440-point grid `-180 + k/4` for `0 ≤ k < 1440` (full −180°…180° range at
0.25° steps), the error list has exactly one affine-corrected fit error per
grid point in order (no interpolation or refinement), and the returned
coordinates are the affine-corrected projections recomputed at the grid
point of minimum error (first minimizer, `np.argmin`). -/
theorem grid1dsearch_spec (sqrt : K → K) (projf : K → K → K → K × K)
    (lon lat x y : Fin N → K) (g errsList : List K) (out : Matrix (Fin 2) (Fin N) K)
    (h : grid1dsearch sqrt projf lon lat x y = some (g, errsList, out)) :
    g = gridList K ∧
    errsList.length = 1440 ∧
    (∀ v, v ∈ g ↔ ∃ k : ℕ, k < 1440 ∧ v = -180 + (k : K) * (1 / 4)) ∧
    (∀ p ∈ g.zip errsList, gridErrAt sqrt projf lon lat x y p.1 = some p.2) ∧
    (∃ r, remove_affine (pixMat x y)
        (projMat (projf (g.getD (npArgmin errsList) 0)) lon lat) none false = some r ∧
      out = r.qnew) := by
  unfold grid1dsearch at h
  rw [Option.bind_eq_some] at h
  obtain ⟨errs, hE, h⟩ := h
  rw [Option.bind_eq_some] at h
  obtain ⟨r, hR, h⟩ := h
  simp only [Option.some.injEq, Prod.mk.injEq] at h
  obtain ⟨hg, herrs, hout⟩ := h
  subst hg
  subst herrs
  obtain ⟨hlen, hzip⟩ := optionMapList_some _ _ _ hE
  exact ⟨rfl, by rw [hlen, gridList_length], fun v => mem_gridList v, hzip,
    ⟨r, hR, hout.symm⟩⟩

theorem foldr_min_replicate (a : K) (nn : ℕ) :
    (List.replicate nn a).foldr min a = a := by
  induction nn with
  | zero => rfl
  | succ k ih => rw [List.replicate_succ, List.foldr_cons, ih, min_self]

theorem npArgmin_replicate (nn : ℕ) (a : K) :
    npArgmin (List.replicate (nn + 1) a) = 0 := by
  unfold npArgmin
  rw [List.replicate_succ]
  have hmin : npMin (a :: List.replicate nn a) = a := foldr_min_replicate a nn
  rw [hmin, List.indexOf_cons_self]

theorem gridList_getD_zero : (gridList K).getD 0 0 = -180 := by
  show (((List.range 1440).map fun (k : ℕ) => -180 + (k : K) * (1 / 4)).getD 0 0) = -180
  rw [show (1440 : ℕ) = 1439 + 1 from rfl, List.range_succ_eq_map, List.map_cons,
    List.getD_cons_zero]
  norm_num

theorem gridErrAt_C (l : ℚ) : gridErrAt id projfC lonC latC lonC latC l = some 0 := by
  unfold gridErrAt
  rw [show remove_affine (pixMat lonC latC) (projMat (projfC l) lonC latC) none false =
    some rC from fit_xyC]
  simp only [Option.map_some']
  show some (L2_norm_error id xyC xyC) = some 0
  unfold L2_norm_error
  simp

theorem gridRun_C : grid1dsearch id projfC lonC latC lonC latC =
    some (gridList ℚ, List.replicate 1440 (0 : ℚ), xyC) := by
  unfold grid1dsearch
  have hmap : optionMapList (gridErrAt id projfC lonC latC lonC latC) (gridList ℚ) =
      some (List.replicate 1440 (0 : ℚ)) := by
    rw [optionMapList_map _ (fun _ => (0 : ℚ)) _ (fun z _ => gridErrAt_C z)]
    rw [List.map_const', gridList_length]
  rw [hmap]
  rw [show ((some (List.replicate 1440 (0 : ℚ))).bind fun errs =>
      (remove_affine (pixMat lonC latC)
          (projMat (projfC ((gridList ℚ).getD (npArgmin errs) 0)) lonC latC) none false).bind
        fun r => some (gridList ℚ, errs, r.qnew)) =
      (remove_affine (pixMat lonC latC)
          (projMat (projfC ((gridList ℚ).getD (npArgmin (List.replicate 1440 (0 : ℚ))) 0))
            lonC latC) none false).bind
        fun r => some (gridList ℚ, List.replicate 1440 (0 : ℚ), r.qnew) from rfl]
  rw [show npArgmin (List.replicate 1440 (0 : ℚ)) = 0 from npArgmin_replicate 1439 0]
  rw [gridList_getD_zero]
  rw [show remove_affine (pixMat lonC latC) (projMat (projfC (-180)) lonC latC) none false =
    some rC from fit_xyC]
  rfl

/-- Witness for C8: on the concrete three-point identity data set the grid
search returns the full grid, 1440 zero errors, and the exactly fitted
output, and the properties of the claim hold of them. -/
theorem grid1dsearch_spec_witness :
    gridList ℚ = gridList ℚ ∧
    (List.replicate 1440 (0 : ℚ)).length = 1440 ∧
    (∀ v, v ∈ gridList ℚ ↔ ∃ k : ℕ, k < 1440 ∧ v = -180 + (k : ℚ) * (1 / 4)) ∧
    (∀ p ∈ (gridList ℚ).zip (List.replicate 1440 (0 : ℚ)),
      gridErrAt id projfC lonC latC lonC latC p.1 = some p.2) ∧
    (∃ r, remove_affine (pixMat lonC latC)
        (projMat (projfC ((gridList ℚ).getD (npArgmin (List.replicate 1440 (0 : ℚ))) 0))
          lonC latC) none false = some r ∧ xyC = r.qnew) :=
  grid1dsearch_spec id projfC lonC latC lonC latC (gridList ℚ)
    (List.replicate 1440 (0 : ℚ)) xyC gridRun_C

end Steppe
